import Mathlib

/-!
Verification of the Medical Voice Assistant repository.

This file gives a shallow embedding, in Lean 4, of the pure computational
content of the repository's Python sources:

  * `audio_processor.py` — duration validation and format conversion dispatch;
  * `speech_recognizer.py` — the pre-network guards of `recognize_speech`
    and the text normalisation `clean_text`;
  * `medical_analyzer.py` — `analyze_patient_request` and its two heuristics
    `_detect_request_type` and `_extract_keywords`;
  * `main.py` — the extension-inference logic and the per-request
    file-lifecycle of `handle_audio_message` / `cleanup_files`.

Python strings are modelled as `List Char` (Python `len`/slicing count code
points, as `List Char` does); the external effects (Telegram, the decoding
library, the two HTTP services, the filesystem) are modelled as explicit
parameters recording their outcomes, so each embedded function is a pure,
executable Lean function of the code's inputs and of those outcomes.
-/

/-! ## Character helpers -/

/-- Whitespace test used by Python's `str.split()` with no argument,
restricted to the ASCII whitespace characters (space, tab, newline,
carriage return, vertical tab, form feed). -/
def isSpaceB (c : Char) : Bool :=
  c == ' ' || c == '\t' || c == '\n' || c == '\r' || c == '\x0b' || c == '\x0c'

/-- Python `str.lower()`, restricted to the character repertoire this
repository manipulates: ASCII letters and the Cyrillic block actually used
by its string tables (А–Я are mapped down by 0x20, Ё to ё). -/
def pyLower (c : Char) : Char :=
  if 'A' ≤ c && c ≤ 'Z' then Char.ofNat (c.toNat + 32)
  else if 0x410 ≤ c.toNat && c.toNat ≤ 0x42F then Char.ofNat (c.toNat + 32)
  else if c.toNat == 0x401 then Char.ofNat 0x451
  else c

/-- Lowercase a whole string (Python `s.lower()`), character by character. -/
def pyLowerS (s : String) : String := String.mk (s.data.map pyLower)

/-! ## List-of-characters helpers -/

/-- `prefB p s` : `p` is a prefix of `s` (the test done by Python's
`str.startswith`, and implicitly by `in` / `replace` at each position). -/
def prefB : List Char → List Char → Bool
  | [], _ => true
  | _ :: _, [] => false
  | a :: as, b :: bs => a == b && prefB as bs

/-- `subB p s` : `p` occurs as a contiguous substring of `s` — Python's
`p in s` on strings. -/
def subB (p : List Char) : List Char → Bool
  | [] => p.isEmpty
  | c :: cs => prefB p (c :: cs) || subB p cs

/-- One pass of Python's `s.replace(pat, rep)` (left to right,
non-overlapping, replacing every occurrence).  The auxiliary counter `k`
counts characters still to be skipped because they belong to a match that
was already replaced. -/
def replaceAllAux (pat rep : List Char) : List Char → Nat → List Char
  | [], _ => []
  | _ :: cs, k + 1 => replaceAllAux pat rep cs k
  | c :: cs, 0 =>
    if prefB pat (c :: cs) then rep ++ replaceAllAux pat rep cs (pat.length - 1)
    else c :: replaceAllAux pat rep cs 0

/-- Python `s.replace(pat, rep)` for a non-empty `pat`. -/
def replaceAll (pat rep s : List Char) : List Char := replaceAllAux pat rep s 0

/-- The word list produced by Python's `s.split()` (split on whitespace
runs, discarding empty pieces).  `acc` holds the reversed current word. -/
def wordsAux : List Char → List Char → List (List Char)
  | [], acc => if acc.isEmpty then [] else [acc.reverse]
  | c :: cs, acc =>
    if isSpaceB c then
      if acc.isEmpty then wordsAux cs [] else acc.reverse :: wordsAux cs []
    else wordsAux cs (c :: acc)

/-- Python `s.split()`. -/
def pyWords (cs : List Char) : List (List Char) := wordsAux cs []

/-- `" ".join(words)`. -/
def joinSpace : List (List Char) → List Char
  | [] => []
  | [w] => w
  | w :: ws => w ++ ' ' :: joinSpace ws

/-- `" ".join(s.split())` — collapse whitespace runs to single spaces and
strip leading/trailing whitespace. -/
def collapseWs (cs : List Char) : List Char := joinSpace (pyWords cs)

/-- The text after the last occurrence of `sep` (the whole list when `sep`
does not occur) — the semantics of Python's `s.split(sep)[-1]`. -/
def afterLastChar (sep : Char) : List Char → List Char
  | [] => []
  | c :: cs =>
    if cs.contains sep then afterLastChar sep cs
    else if c == sep then cs else c :: afterLastChar sep cs

/-- Python `s.split(sep)` for a one-character separator (used by
`main.py` as `file_name.split(".")`): always returns a non-empty list of
(possibly empty) groups. -/
def splitOnChar (sep : Char) : List Char → List (List Char)
  | [] => [[]]
  | c :: cs =>
    match splitOnChar sep cs with
    | [] => [[]]
    | g :: gs => if c == sep then [] :: g :: gs else (c :: g) :: gs

/-- Python `s.strip()` (both ends), over the modelled whitespace set. -/
def pyStrip (cs : List Char) : List Char :=
  ((cs.dropWhile isSpaceB).reverse.dropWhile isSpaceB).reverse

/-- `pathlib.Path(p).suffix`: the extension (with its dot) of the final
path component; empty when the final component has no dot, starts with its
only dot, or ends with a dot. -/
def pathSuffix (p : List Char) : List Char :=
  let n := afterLastChar '/' p
  if n.contains '.' then
    let suf := afterLastChar '.' n
    if suf.length + 1 == n.length then []
    else if suf.isEmpty then []
    else '.' :: suf
  else []

/-! ## `audio_processor.py` -/

/-- Rendering of the duration in the `f"{duration:.1f}"` style used by
`is_audio_valid`'s messages.  Durations are modelled in integer
milliseconds (pydub's `len(audio)` is an integer count of milliseconds and
`duration = len(audio) / 1000.0`), so one decimal digit is exact here. -/
def fmt1 (ms : Nat) : String :=
  toString (ms / 1000) ++ "." ++ toString (ms / 100 % 10)

/-- `AudioProcessor.is_audio_valid` from `audio_processor.py`, with the
filesystem and decoding library abstracted into two inputs: `fexists`
(does the file exist) and `durationMs` (the duration reported by
`get_audio_duration`, in milliseconds; `0` also stands for its
decode-failure return of `0.0`).  `maxDuration` is in seconds, as in the
source. -/
def is_audio_valid (fexists : Bool) (durationMs : Nat) (maxDuration : Nat) :
    Bool × String :=
  if !fexists then (false, "Файл не существует")
  else if durationMs == 0 then (false, "Не удалось определить длительность аудио")
  else if 1000 * maxDuration < durationMs then
    (false, "Аудио слишком длинное (" ++ fmt1 durationMs ++ " сек). Максимум: "
      ++ toString maxDuration ++ " сек")
  else if durationMs < 1000 then (false, "Аудио слишком короткое")
  else (true, "Аудио валидно, длительность: " ++ fmt1 durationMs ++ " сек")

/-- Which decoding entry point of the multimedia library
`convert_to_speech_format` selects. -/
inductive DecoderKind
  | oggDec
  | mp3Dec
  | wavDec
  | noneDec
deriving DecidableEq

/-- The decoder branch chosen for a (already lowercased) extension, as in
the `if`/`elif` chain of `convert_to_speech_format`. -/
def decoderFor (e : String) : DecoderKind :=
  if e == ".ogg" || e == ".oga" then .oggDec
  else if e == ".mp3" || e == ".m4a" then .mp3Dec
  else if e == ".wav" then .wavDec
  else .noneDec

/-- The five extensions accepted by `convert_to_speech_format`. -/
def supportedExts : List String := [".ogg", ".oga", ".mp3", ".m4a", ".wav"]

/-- Observable outcome of a `convert_to_speech_format` call: its boolean
return value, which decoder branch (if any) was invoked, and whether the
output WAV file was created. -/
structure ConvertOutcome where
  success : Bool
  decoder : DecoderKind
  outputCreated : Bool
deriving DecidableEq

/-- `AudioProcessor.convert_to_speech_format` from `audio_processor.py`.
The external library's behaviour is abstracted into `decodeOk` (the
`AudioSegment.from_*` call succeeds) and `exportOk` (the `export` call
succeeds); a failed call raises, is caught by the function's `except`, and
yields `False` with no output file (a partial file possibly left by a
failed `export` is below this model's abstraction). -/
def convert_to_speech_format (inputPath : String) (decodeOk exportOk : Bool) :
    ConvertOutcome :=
  match decoderFor (String.mk ((pathSuffix inputPath.data).map pyLower)) with
  | .noneDec => ⟨false, .noneDec, false⟩
  | d =>
    if decodeOk then
      if exportOk then ⟨true, d, true⟩ else ⟨false, d, false⟩
    else ⟨false, d, false⟩

/-! ## `speech_recognizer.py` -/

/-- Observable outcome of a `recognize_speech` call: its return value,
whether the audio file's contents were read, and whether the HTTP request
to the transcription service was issued. -/
structure RecognizeOutcome where
  result : Option String
  fileRead : Bool
  networkCalled : Bool
deriving DecidableEq

/-- `SpeechRecognizer.recognize_speech` from `speech_recognizer.py`, with
the filesystem and network abstracted into inputs: `fexists` (does the
path exist), `sizeBytes` (the `os.path.getsize` value; the source compares
`size / (1024*1024) > 10`, and division by the power of two `1024*1024`
is exact, so the test is `sizeBytes > 10*1024*1024`), and `apiResponse`
(`none` = network/HTTP error raised, `some none` = JSON body without a
`result` field, `some (some t)` = JSON `result` text `t`). -/
def recognize_speech (fexists : Bool) (sizeBytes : Nat)
    (apiResponse : Option (Option String)) : RecognizeOutcome :=
  if !fexists then ⟨none, false, false⟩
  else if 10 * 1024 * 1024 < sizeBytes then ⟨none, false, false⟩
  else
    match apiResponse with
    | none => ⟨none, true, true⟩
    | some none => ⟨none, true, true⟩
    | some (some t) => ⟨some (String.mk (pyStrip t.data)), true, true⟩

/-- The `corrections` table of `clean_text`, in its Python dict insertion
order (the order in which `str.replace` is applied). -/
def corrections : List (String × String) :=
  [("к примеру", "например"),
   ("спасибо большое", "спасибо"),
   ("пожалуйста большое", "пожалуйста")]

/-- `SpeechRecognizer.clean_text` from `speech_recognizer.py`: empty in,
empty out; otherwise collapse whitespace with `" ".join(text.split())`
and apply the three literal replacements in table order. -/
def clean_text (s : String) : String :=
  if s.data.isEmpty then ""
  else
    String.mk (corrections.foldl
      (fun acc wc => replaceAll wc.1.data wc.2.data acc)
      (collapseWs s.data))

/-! ## `medical_analyzer.py` -/

/-- The `request_types` table of `_detect_request_type`, in Python dict
insertion order (which is the iteration order of the source's loop). -/
def requestTypes : List (String × List String) :=
  [("Симптомы", ["бол", "боль", "температур", "тошнит", "кашель", "насморк"]),
   ("Диагностика", ["обследован", "анализ", "рентген", "узи", "диагноз"]),
   ("Лечение", ["леч", "таблетк", "укол", "мазь", "препарат"]),
   ("Профилактика", ["профилактик", "прививк", "здоровь", "предупред"]),
   ("Жалоба", ["жалоб", "проблем", "недовол", "плох", "ужасн"])]

/-- The nested loop of `_detect_request_type`: first table entry one of
whose keywords occurs in the (lowercased) text. -/
def firstMatch (tl : List Char) : List (String × List String) → Option String
  | [] => none
  | (lab, kws) :: rest =>
    if kws.any (fun k => subB k.data tl) then some lab else firstMatch tl rest

/-- `MedicalAnalyzer._detect_request_type` from `medical_analyzer.py`. -/
def detect_request_type (text : String) : String :=
  (firstMatch (text.data.map pyLower) requestTypes).getD "Консультация"

/-- The `medical_terms` vocabulary of `_extract_keywords`, in source
order. -/
def medicalTerms : List String :=
  ["боль", "температур", "давлен", "сердц", "голова", "живот",
   "кашель", "насморк", "тошнот", "рвот", "аллерги", "инфекц",
   "препарат", "таблетк", "укол", "мазь", "анализ", "обследован"]

/-- `MedicalAnalyzer._extract_keywords` from `medical_analyzer.py`: the
vocabulary terms occurring in the lowercased text, deduplicated, first 5
kept.  The source's `list(set(keywords))` iterates a Python `set`, whose
order is unspecified; this model fixes vocabulary order (the terms are
pairwise distinct, so deduplication is the identity either way, and every
property stated below is order-independent). -/
def extract_keywords (text : String) : List String :=
  let tl := text.data.map pyLower
  ((medicalTerms.filter (fun t => subB t.data tl)).dedup).take 5

/-- The analysis record built by `analyze_patient_request` (Python dict
with keys `analysis`, `request_type`, `keywords`, `original_text`). -/
structure AnalysisResult where
  analysis : String
  request_type : String
  keywords : List String
  original_text : String
deriving DecidableEq

/-- `MedicalAnalyzer.analyze_patient_request` from `medical_analyzer.py`,
with the chat-completion call abstracted into `apiOk` (the call and field
accesses succeed) and `apiText` (the returned completion content).  The
success branch truncates `patient_text` to 500 characters plus a literal
`"..."` when it is longer than 500; the degraded branch (any exception)
returns the fixed failure record with `patient_text[:200]`. -/
def analyze_patient_request (apiOk : Bool) (apiText : String)
    (patient_text : String) : AnalysisResult :=
  if apiOk then
    { analysis := String.mk (pyStrip apiText.data)
      request_type := detect_request_type patient_text
      keywords := extract_keywords patient_text
      original_text :=
        if 500 < patient_text.data.length
        then String.mk (patient_text.data.take 500) ++ "..."
        else patient_text }
  else
    { analysis := "Не удалось проанализировать обращение."
      request_type := "Не определен"
      keywords := []
      original_text :=
        if patient_text.data.isEmpty then ""
        else String.mk (patient_text.data.take 200) }

/-! ## `main.py` -/

/-- The extension computed by `handle_audio_message` for an audio-file
message: `file_ext = file_name.split(".")[-1] if file_name else ".mp3"`
(Python truthiness: both a missing and an empty filename take the
default), before the final `f".{file_ext.lower()}"` re-wrap. -/
def inferExtRaw : Option String → String
  | none => ".mp3"
  | some n =>
    if n.data.isEmpty then ".mp3"
    else String.mk ((splitOnChar '.' n.data).getLastD [])

/-- The full extension inference of `handle_audio_message` for audio-file
messages: `file_ext = f".{file_ext.lower()}"` applied to `inferExtRaw`. -/
def inferExt (fn : Option String) : String :=
  "." ++ pyLowerS (inferExtRaw fn)

/-- The kind of incoming message `handle_audio_message` dispatches on:
a Telegram voice note, an audio file (with its optional filename), or
anything else. -/
inductive MsgKind
  | voice
  | audioFile (fileName : Option String)
  | other

/-- Which of the request's two temporary files exist in the temp
directory (the `{id}_original{ext}` download and the `{id}.wav`
conversion output). -/
structure FileState where
  orig : Bool
  wav : Bool
deriving DecidableEq

/-- Environment of one `handle_audio_message` run: the message kind and
the outcomes of every external interaction.  `raises n = true` means the
`n`-th Telegram-API await inside the `try` block raises (indices in code
order: 0 `get_file`, 2 the "Загружаю" reply, 4 the validation-failure
reply, 5 the validation-success reply, 6 the "Конвертирую" reply, 7 the
conversion-failure reply, 8 the "Распознаю" reply, 9 the
recognition-failure reply, 10 the "Анализирую" reply; `download`,
`convert`, `recognize`, `analyze`, `send_analysis_results` and
`cleanup_files` all catch their own exceptions and never raise). -/
structure HandlerEnv where
  msg : MsgKind
  raises : Nat → Bool
  audioId : String
  downloadOk : Bool
  durationMs : Nat
  decodeOk : Bool
  exportOk : Bool
  wavSizeBytes : Nat
  recogApi : Option (Option String)

/-- The body of `handle_audio_message` after the extension is known,
threading the request's `FileState` through every exit path of the
source.  A download failure returns with no file created; a validation
failure deletes the original; a conversion failure deletes only the
original; a recognition failure and the success path delete both; a
Telegram await that raises jumps to the handler's generic `except` block,
which sends an apology and returns without any cleanup. -/
def handleCore (env : HandlerEnv) (maxDuration : Nat) (ext : String) : FileState :=
  if env.raises 2 then ⟨false, false⟩
  else if !env.downloadOk then ⟨false, false⟩
  else
    let fs1 : FileState := ⟨true, false⟩
    if !(is_audio_valid true env.durationMs maxDuration).1 then
      if env.raises 4 then fs1 else ⟨false, false⟩
    else if env.raises 5 then fs1
    else if env.raises 6 then fs1
    else
      let origPath := "temp_audio/" ++ env.audioId ++ "_original" ++ ext
      let conv := convert_to_speech_format origPath env.decodeOk env.exportOk
      let fs2 : FileState := ⟨true, conv.outputCreated⟩
      if !conv.success then
        if env.raises 7 then fs2 else ⟨false, fs2.wav⟩
      else if env.raises 8 then fs2
      else
        let recog := recognize_speech true env.wavSizeBytes env.recogApi
        if recog.result == none || recog.result == some "" then
          if env.raises 9 then fs2 else ⟨false, false⟩
        else if env.raises 10 then fs2
        else ⟨false, false⟩

/-- `handle_audio_message` from `main.py`, as a function from the run's
environment to the final `FileState` of the request's temporary files.
A non-audio message replies and returns before any file is created; for
voice messages the extension is `".ogg"`, for audio files it is inferred
from the filename by `inferExt`. -/
def handle_audio_message (env : HandlerEnv) (maxDuration : Nat) : FileState :=
  match env.msg with
  | .other => ⟨false, false⟩
  | .voice =>
    if env.raises 0 then ⟨false, false⟩
    else handleCore env maxDuration ".ogg"
  | .audioFile fn =>
    if env.raises 0 then ⟨false, false⟩
    else handleCore env maxDuration (inferExt fn)

/-- The text after the last `'.'` of a string, the whole string when it
has no dot — stated independently of `splitOnChar`, following the spec's
words ("the text after its last dot"), for comparison with the
`split(".")[-1]` computation of the source. -/
def afterLastDot (cs : List Char) : List Char := afterLastChar '.' cs

/-- A 501-character input text. -/
def longText : String := String.mk (List.replicate 501 'a')

/-- Environment of a `handle_audio_message` run in which everything up to
validation succeeds and the Telegram reply that reports successful
validation (await index 5) raises an unexpected exception. -/
def cleanupBugEnv : HandlerEnv :=
  { msg := .voice, raises := fun n => n == 5, audioId := "42_20240101_000000",
    downloadOk := true, durationMs := 150000, decodeOk := true, exportOk := true,
    wavSizeBytes := 1000, recogApi := some (some "текст") }

/-! ## Helper lemmas -/

theorem prefB_trans {p q s : List Char} (h1 : prefB p q = true)
    (h2 : prefB q s = true) : prefB p s = true := by
  induction p generalizing q s with
  | nil => simp [prefB]
  | cons a as ih =>
    cases q with
    | nil => simp [prefB] at h1
    | cons b bs =>
      cases s with
      | nil => simp [prefB] at h2
      | cons c cs =>
        simp [prefB, Bool.and_eq_true, beq_iff_eq] at h1 h2 ⊢
        exact ⟨h1.1.trans h2.1, ih h1.2 h2.2⟩

theorem prefB_map (f : Char → Char) {p s : List Char} (h : prefB p s = true) :
    prefB (p.map f) (s.map f) = true := by
  induction p generalizing s with
  | nil => simp [prefB]
  | cons a as ih =>
    cases s with
    | nil => simp [prefB] at h
    | cons b bs =>
      simp [prefB, Bool.and_eq_true, beq_iff_eq] at h ⊢
      exact ⟨by rw [h.1], ih h.2⟩

theorem prefB_append_right {p s : List Char} (t : List Char)
    (h : prefB p s = true) : prefB p (s ++ t) = true := by
  induction p generalizing s with
  | nil => simp [prefB]
  | cons a as ih =>
    cases s with
    | nil => simp [prefB] at h
    | cons b bs =>
      simp [prefB, Bool.and_eq_true, beq_iff_eq] at h ⊢
      exact ⟨h.1, ih h.2⟩

theorem subB_mono {p q s : List Char} (hpq : prefB p q = true)
    (h : subB q s = true) : subB p s = true := by
  induction s with
  | nil =>
    simp [subB, List.isEmpty_iff] at h ⊢
    subst h
    cases p with
    | nil => rfl
    | cons a as => simp [prefB] at hpq
  | cons c cs ih =>
    simp [subB, Bool.or_eq_true] at h ⊢
    rcases h with h | h
    · exact Or.inl (prefB_trans hpq h)
    · exact Or.inr (ih h)

theorem subB_map (f : Char → Char) {p s : List Char} (h : subB p s = true) :
    subB (p.map f) (s.map f) = true := by
  induction s with
  | nil =>
    simp [subB, List.isEmpty_iff] at h ⊢
    simp [h]
  | cons c cs ih =>
    simp [subB, Bool.or_eq_true] at h ⊢
    rcases h with h | h
    · exact Or.inl (by simpa using prefB_map f h)
    · exact Or.inr (ih h)

theorem replaceAll_no_occurrence (pat rep : List Char) :
    ∀ s, subB pat s = false → replaceAllAux pat rep s 0 = s := by
  intro s
  induction s with
  | nil => intro _; rfl
  | cons c cs ih =>
    intro h
    simp [subB, Bool.or_eq_false_iff] at h
    simp [replaceAllAux, h.1, ih h.2]

theorem firstMatch_of_first (tl : List Char) (pre : List (String × List String))
    (lab : String) (kws : List String) (post : List (String × List String))
    (hpre : ∀ e ∈ pre, e.2.any (fun k => subB k.data tl) = false)
    (hm : kws.any (fun k => subB k.data tl) = true) :
    firstMatch tl (pre ++ (lab, kws) :: post) = some lab := by
  induction pre with
  | nil => simp [firstMatch, hm]
  | cons e pre ih =>
    obtain ⟨l, ks⟩ := e
    have he : ks.any (fun k => subB k.data tl) = false := hpre (l, ks) (by simp)
    simp only [List.cons_append, firstMatch, he, Bool.false_eq_true, if_false]
    exact ih (fun e he' => hpre e (List.mem_cons_of_mem _ he'))

theorem firstMatch_of_none (tl : List Char) (table : List (String × List String))
    (h : ∀ e ∈ table, e.2.any (fun k => subB k.data tl) = false) :
    firstMatch tl table = none := by
  induction table with
  | nil => rfl
  | cons e rest ih =>
    obtain ⟨l, ks⟩ := e
    have he : ks.any (fun k => subB k.data tl) = false := h (l, ks) (by simp)
    simp only [firstMatch, he, Bool.false_eq_true, if_false]
    exact ih (fun e he' => h e (List.mem_cons_of_mem _ he'))

theorem afterLastChar_of_not_mem (sep : Char) :
    ∀ cs : List Char, sep ∉ cs → afterLastChar sep cs = cs := by
  intro cs
  induction cs with
  | nil => intro _; rfl
  | cons c cs ih =>
    intro h
    simp only [List.mem_cons, not_or] at h
    simp [afterLastChar, h.2, ih h.2, Ne.symm h.1]

theorem splitOnChar_ne_nil (sep : Char) :
    ∀ cs : List Char, splitOnChar sep cs ≠ [] := by
  intro cs
  induction cs with
  | nil => simp [splitOnChar]
  | cons c cs ih =>
    cases h : splitOnChar sep cs with
    | nil => exact absurd h ih
    | cons g gs =>
      simp only [splitOnChar, h]
      split <;> simp

theorem splitOnChar_of_not_mem (sep : Char) :
    ∀ cs : List Char, sep ∉ cs → splitOnChar sep cs = [cs] := by
  intro cs
  induction cs with
  | nil => intro _; rfl
  | cons c cs ih =>
    intro h
    simp only [List.mem_cons, not_or] at h
    simp [splitOnChar, ih h.2, Ne.symm h.1]

theorem splitOnChar_two_le (sep : Char) :
    ∀ cs : List Char, sep ∈ cs → 2 ≤ (splitOnChar sep cs).length := by
  intro cs
  induction cs with
  | nil => intro h; simp at h
  | cons c cs ih =>
    intro h
    cases hg : splitOnChar sep cs with
    | nil => exact absurd hg (splitOnChar_ne_nil sep cs)
    | cons g gs =>
      by_cases hc : c = sep
      · simp [splitOnChar, hg, hc]
      · have hcont : sep ∈ cs := by
          rcases List.mem_cons.mp h with h1 | h1
          · exact absurd h1.symm hc
          · exact h1
        have h2 := ih hcont
        rw [hg] at h2
        simp only [List.length_cons] at h2
        simp [splitOnChar, hg, hc]
        omega

theorem getLastD_acc_irrel {α : Type} :
    ∀ (l : List α), l ≠ [] → ∀ x y : α, l.getLastD x = l.getLastD y
  | [], h, _, _ => absurd rfl h
  | [_], _, _, _ => rfl
  | _ :: _ :: _, _, _, _ => by simp only [List.getLastD_cons]

theorem getLastD_splitOnChar (sep : Char) :
    ∀ cs : List Char, (splitOnChar sep cs).getLastD [] = afterLastChar sep cs := by
  intro cs
  induction cs with
  | nil => rfl
  | cons c cs ih =>
    cases hsp : splitOnChar sep cs with
    | nil => exact absurd hsp (splitOnChar_ne_nil sep cs)
    | cons g gs =>
      by_cases hc : c = sep
      · have h1 : splitOnChar sep (c :: cs) = [] :: g :: gs := by
          simp [splitOnChar, hsp, hc]
        rw [h1, List.getLastD_cons, ← hsp, ih]
        by_cases hcont : sep ∈ cs
        · simp [afterLastChar, hcont, hc]
        · simp [afterLastChar, hcont, hc, afterLastChar_of_not_mem sep cs hcont]
      · have h1 : splitOnChar sep (c :: cs) = (c :: g) :: gs := by
          simp [splitOnChar, hsp, hc]
        by_cases hcont : sep ∈ cs
        · have h2 := splitOnChar_two_le sep cs hcont
          rw [hsp] at h2
          have hgs : gs ≠ [] := by
            cases gs with
            | nil => simp at h2
            | cons _ _ => simp
          have ihx : gs.getLastD g = afterLastChar sep cs := by
            have h3 := ih
            rw [hsp, List.getLastD_cons] at h3
            exact h3
          rw [h1, List.getLastD_cons]
          calc gs.getLastD (c :: g) = gs.getLastD g := getLastD_acc_irrel gs hgs _ _
            _ = afterLastChar sep cs := ihx
            _ = afterLastChar sep (c :: cs) := by simp [afterLastChar, hcont]
        · have h3 := splitOnChar_of_not_mem sep cs hcont
          rw [hsp] at h3
          injection h3 with hg hgs
          subst hgs
          rw [h1, hg]
          simp [List.getLastD, afterLastChar, hcont, hc,
            afterLastChar_of_not_mem sep cs hcont]

theorem decoderFor_eq_noneDec_iff (e : String) :
    decoderFor e = DecoderKind.noneDec ↔ e ∉ supportedExts := by
  constructor
  · intro h hmem
    simp only [supportedExts, List.mem_cons, List.not_mem_nil, or_false] at hmem
    rcases hmem with h1 | h1 | h1 | h1 | h1 <;> subst h1 <;> exact absurd h (by decide)
  · intro h
    simp only [supportedExts, List.mem_cons, List.not_mem_nil, or_false, not_or] at h
    obtain ⟨n1, n2, n3, n4, n5⟩ := h
    simp [decoderFor, n1, n2, n3, n4, n5]

theorem append_left_ne_empty {s : String} (t : String) (h : s ≠ "") :
    s ++ t ≠ "" := by
  intro he
  apply h
  rw [String.ext_iff] at he ⊢
  rw [String.data_append] at he
  exact (List.append_eq_nil.mp he).1

/-! ## Sanity checks on concrete inputs -/

example : is_audio_valid true 500 300 = (false, "Аудио слишком короткое") := by decide
example : (is_audio_valid true 150000 300).1 = true := by decide
example : subB "150.0".data (is_audio_valid true 150000 300).2.data = true := by decide
example : is_audio_valid true 301000 300 =
    (false, "Аудио слишком длинное (301.0 сек). Максимум: 300 сек") := by decide
example : pathSuffix "/tmp/a.OGG".data = ".OGG".data := by decide
example : pathSuffix "/tmp/x..mp3".data = ".mp3".data := by decide
example : pathSuffix "/tmp/.bashrc".data = [] := by decide
example : convert_to_speech_format "/tmp/a.flac" true true = ⟨false, .noneDec, false⟩ := by decide
example : convert_to_speech_format "/tmp/a.OGG" true true = ⟨true, .oggDec, true⟩ := by decide

example : clean_text "к   примеру   спасибо большое" = "например спасибо" := by decide
example : clean_text "спасибо большое большое" = "спасибо большое" := by decide
example : clean_text "спасибо большое" = "спасибо" := by decide
example : recognize_speech false 5 (some (some "ясно")) = ⟨none, false, false⟩ := by decide

example : detect_request_type "у меня болит голова" = "Симптомы" := by decide
example : detect_request_type "когда приём" = "Консультация" := by decide
example : extract_keywords "боль в животе и температура" = ["боль", "температур", "живот"] := by decide

example : inferExt none = "..mp3" := by decide
example : inferExt (some "Voice.MP3") = ".mp3" := by decide
example : inferExt (some "audio") = ".audio" := by decide
example :
    (handle_audio_message
      { msg := .voice, raises := fun n => n == 5, audioId := "42_20240101_000000",
        downloadOk := true, durationMs := 150000, decodeOk := true, exportOk := true,
        wavSizeBytes := 1000, recogApi := some (some "текст") } 300) = ⟨true, false⟩ := by decide
example :
    (handle_audio_message
      { msg := .voice, raises := fun _ => false, audioId := "42_20240101_000000",
        downloadOk := true, durationMs := 150000, decodeOk := true, exportOk := true,
        wavSizeBytes := 1000, recogApi := some (some "текст") } 300) = ⟨false, false⟩ := by decide

/-! ## Claim theorems -/

/-- C2: `is_audio_valid` returns `(false, message)` exactly when the file
is absent, or the measured duration is 0, or the duration exceeds
`max_duration`, or the duration is below 1 second, with a non-empty
message in every branch; duration 0.5 s is invalid with the "too short"
message, 301 s with max 300 is invalid with the "too long" message, and
150 s with max 300 is valid with a message containing "150.0". -/
theorem is_audio_valid_spec :
    (∀ (fexists : Bool) (durationMs maxDuration : Nat),
      ((is_audio_valid fexists durationMs maxDuration).1 = false ↔
        (fexists = false ∨ durationMs = 0 ∨ 1000 * maxDuration < durationMs ∨
          durationMs < 1000)) ∧
      (is_audio_valid fexists durationMs maxDuration).2 ≠ "")
    ∧ is_audio_valid true 500 300 = (false, "Аудио слишком короткое")
    ∧ is_audio_valid true 301000 300 =
        (false, "Аудио слишком длинное (301.0 сек). Максимум: 300 сек")
    ∧ (is_audio_valid true 150000 300).1 = true
    ∧ subB "150.0".data (is_audio_valid true 150000 300).2.data = true := by
  refine ⟨?_, by decide, by decide, by decide, by decide⟩
  intro fexists ms mx
  constructor
  · cases fexists <;> simp only [is_audio_valid] <;> split_ifs <;>
      simp_all
  · cases fexists <;> simp only [is_audio_valid] <;> split_ifs <;>
      first
        | decide
        | exact append_left_ne_empty _ (append_left_ne_empty _
            (append_left_ne_empty _ (append_left_ne_empty _ (by decide))))
        | exact append_left_ne_empty _ (append_left_ne_empty _ (by decide))

/-- C10: for a nonexistent path, `recognize_speech` returns `none`
immediately, without reading the file and without issuing a network
request, whatever the file size and the network's behaviour would have
been. -/
theorem recognize_speech_absent_path :
    ∀ (sizeBytes : Nat) (apiResponse : Option (Option String)),
      recognize_speech false sizeBytes apiResponse =
        ⟨none, false, false⟩ := by
  intro sizeBytes apiResponse
  rfl

/-- C3 counterexample: on a 501-character input, the success branch of
`analyze_patient_request` returns an `original_text` of length 503 (500
characters plus the three-character `"..."` ellipsis), exceeding the
claimed 500-character bound. -/
theorem analyze_original_text_over_500 :
    ¬ ((analyze_patient_request true "ok" longText).original_text.data.length
        ≤ 500) := by
  have hlt : (500 : Nat) < longText.data.length := by
    show (500 : Nat) < (List.replicate 501 'a').length
    rw [List.length_replicate]
    omega
  show ¬ ((if 500 < longText.data.length
      then String.mk (longText.data.take 500) ++ "..."
      else longText).data.length ≤ 500)
  rw [if_pos hlt, String.data_append]
  have h1 : (String.mk (longText.data.take 500)).data = longText.data.take 500 := rfl
  have h2 : ("..." : String).data.length = 3 := rfl
  have h3 : longText.data.length = 501 := by
    show (List.replicate 501 'a').length = 501
    rw [List.length_replicate]
  rw [h1, List.length_append, List.length_take, h2, h3]
  omega

/-- C3 amended: `original_text` always has length at most 503 (at most
500 plus the ellipsis); inputs of at most 500 characters are returned
verbatim by the success branch, and the degraded branch truncates to at
most 200 characters. -/
theorem analyze_original_text_le_503 :
    ∀ (apiOk : Bool) (apiText patient_text : String),
      (analyze_patient_request apiOk apiText patient_text).original_text.data.length ≤ 503
      ∧ (apiOk = true → patient_text.data.length ≤ 500 →
          (analyze_patient_request apiOk apiText patient_text).original_text
            = patient_text)
      ∧ (apiOk = false →
          (analyze_patient_request apiOk apiText patient_text).original_text.data.length ≤ 200) := by
  intro apiOk apiText t
  refine ⟨?_, ?_, ?_⟩
  · cases apiOk with
    | true =>
      show (if 500 < t.data.length
          then String.mk (t.data.take 500) ++ "..." else t).data.length ≤ 503
      split_ifs with h
      · rw [String.data_append]
        have h1 : (String.mk (t.data.take 500)).data = t.data.take 500 := rfl
        have h2 : ("..." : String).data.length = 3 := rfl
        rw [h1, List.length_append, List.length_take, h2]
        omega
      · omega
    | false =>
      show (if t.data.isEmpty then ""
          else String.mk (t.data.take 200)).data.length ≤ 503
      split_ifs with h
      · decide
      · show (t.data.take 200).length ≤ 503
        rw [List.length_take]
        omega
  · intro h1 h2
    subst h1
    show (if 500 < t.data.length
        then String.mk (t.data.take 500) ++ "..." else t) = t
    rw [if_neg (Nat.not_lt.mpr h2)]
  · intro h1
    subst h1
    show (if t.data.isEmpty then ""
        else String.mk (t.data.take 200)).data.length ≤ 200
    split_ifs with h
    · decide
    · show (t.data.take 200).length ≤ 200
      rw [List.length_take]
      omega

/-- Witness for C3's amended theorem at a short concrete input. -/
theorem analyze_original_text_le_503_witness :
    (analyze_patient_request true "ok" "привет").original_text = "привет" :=
  (analyze_original_text_le_503 true "ok" "привет").2.1 rfl (by decide)

/-- C1: the cleanup invariant FAILS on the exception path.  When the
validation-success reply raises after the original file was downloaded,
control jumps to the handler's generic `except` block, which sends an
apology and returns without calling `cleanup_files`, so the request's
original file remains in the temp directory; the same run with no
exception deletes both files. -/
theorem handle_audio_message_cleanup_bug :
    handle_audio_message cleanupBugEnv 300 = ⟨true, false⟩ ∧
    handle_audio_message { cleanupBugEnv with raises := fun _ => false } 300
      = ⟨false, false⟩ := by
  refine ⟨?_, ?_⟩ <;> decide

/-- C4 counterexample: with no filename, the computed extension is
`"..mp3"`, not `".mp3"` — the already-dotted default `".mp3"` is passed
through `f".{file_ext.lower()}"`, which prepends a second dot. -/
theorem inferExt_default_counterexample :
    inferExt none ≠ ".mp3" ∧ inferExt none = "..mp3" := by
  refine ⟨?_, ?_⟩ <;> decide

/-- C4 amended: with no filename the inferred extension is `"..mp3"`
(the `.mp3` default with a spurious extra dot), so the downloaded
original file's name still ends in `".mp3"`; with a non-empty filename
the extension is a single dot followed by the lowercased text after the
filename's last dot. -/
theorem inferExt_spec :
    inferExt none = "..mp3"
    ∧ (∀ audioId : String,
        prefB ".mp3".data.reverse
          ((audioId ++ "_original" ++ inferExt none).data.reverse) = true)
    ∧ (∀ n : String, n.data ≠ [] →
        inferExt (some n) = "." ++ pyLowerS (String.mk (afterLastDot n.data))) := by
  refine ⟨by decide, ?_, ?_⟩
  · intro audioId
    rw [String.data_append, List.reverse_append]
    exact prefB_append_right _ (by decide)
  · intro n hn
    show "." ++ pyLowerS (if n.data.isEmpty = true then ".mp3"
          else String.mk ((splitOnChar '.' n.data).getLastD []))
        = "." ++ pyLowerS (String.mk (afterLastChar '.' n.data))
    rw [if_neg (by simpa [List.isEmpty_iff] using hn), getLastD_splitOnChar]

/-- Witness for C4's amended theorem at a concrete mixed-case filename. -/
theorem inferExt_spec_witness :
    inferExt (some "Voice.MP3")
      = "." ++ pyLowerS (String.mk (afterLastDot "Voice.MP3".data)) :=
  inferExt_spec.2.2 "Voice.MP3" (by decide)

/-- C5 counterexample: `clean_text` is not idempotent.  On the input
"спасибо большое большое" one pass of the non-overlapping replacement of
"спасибо большое" by "спасибо" yields "спасибо большое", which a second
pass rewrites again to "спасибо". -/
theorem clean_text_not_idempotent :
    clean_text (clean_text "спасибо большое большое")
      ≠ clean_text "спасибо большое большое" := by
  decide

theorem replaceAll_no_occ {pat rep s : List Char} (h : subB pat s = false) :
    replaceAll pat rep s = s :=
  replaceAll_no_occurrence pat rep s h

/-- C5 amended: `clean_text` is the identity — hence idempotent — on
every text that is already whitespace-collapsed and contains no
occurrence of a correction-table key; in general a correction can
re-create its own key and a second pass can rewrite further (see the
counterexample). -/
theorem clean_text_idempotent_on_clean :
    ∀ t : String, collapseWs t.data = t.data →
      (∀ wc ∈ corrections, subB wc.1.data t.data = false) →
      clean_text t = t ∧ clean_text (clean_text t) = clean_text t := by
  intro t hw hc
  have c1 : subB "к примеру".data t.data = false :=
    hc ("к примеру", "например") (by simp [corrections])
  have c2 : subB "спасибо большое".data t.data = false :=
    hc ("спасибо большое", "спасибо") (by simp [corrections])
  have c3 : subB "пожалуйста большое".data t.data = false :=
    hc ("пожалуйста большое", "пожалуйста") (by simp [corrections])
  have h1 : clean_text t = t := by
    unfold clean_text
    split_ifs with he
    · have hd : t.data = [] := by simpa [List.isEmpty_iff] using he
      apply String.ext
      rw [hd]
    · show String.mk
        (replaceAll "пожалуйста большое".data "пожалуйста".data
          (replaceAll "спасибо большое".data "спасибо".data
            (replaceAll "к примеру".data "например".data (collapseWs t.data)))) = t
      rw [hw, replaceAll_no_occ c1, replaceAll_no_occ c2, replaceAll_no_occ c3]
  refine ⟨h1, ?_⟩
  rw [h1]
  exact h1

/-- Witness for C5's amended theorem at a concrete clean input. -/
theorem clean_text_idempotent_witness :
    clean_text "привет мир" = "привет мир" :=
  (clean_text_idempotent_on_clean "привет мир" (by decide) (by decide)).1

/-- C6: `_detect_request_type` returns the first label, in the fixed
table order Симптомы, Диагностика, Лечение, Профилактика, Жалоба, one of
whose keywords occurs in the lowercased input; "Консультация" when no
entry matches; and any input containing "болит голова" is classified
"Симптомы". -/
theorem detect_request_type_spec :
    ∀ text : String,
      (∀ (pre : List (String × List String)) (lab : String)
          (kws : List String) (post : List (String × List String)),
        requestTypes = pre ++ (lab, kws) :: post →
        (∀ e ∈ pre,
          e.2.any (fun k => subB k.data (text.data.map pyLower)) = false) →
        kws.any (fun k => subB k.data (text.data.map pyLower)) = true →
        detect_request_type text = lab)
      ∧ ((∀ e ∈ requestTypes,
            e.2.any (fun k => subB k.data (text.data.map pyLower)) = false) →
          detect_request_type text = "Консультация")
      ∧ (subB "болит голова".data text.data = true →
          detect_request_type text = "Симптомы") := by
  intro text
  refine ⟨?_, ?_, ?_⟩
  · intro pre lab kws post htab hpre hm
    unfold detect_request_type
    rw [htab, firstMatch_of_first _ pre lab kws post hpre hm]
    rfl
  · intro h
    unfold detect_request_type
    rw [firstMatch_of_none _ _ h]
    rfl
  · intro h
    have hb : subB "бол".data (text.data.map pyLower) = true := by
      have h1 : subB "бол".data text.data = true := subB_mono (by decide) h
      have h2 := subB_map pyLower h1
      have h3 : "бол".data.map pyLower = "бол".data := by decide
      rw [h3] at h2
      exact h2
    simp [detect_request_type, requestTypes, firstMatch, hb]

/-- Witness for C6's theorem at a concrete symptom phrase. -/
theorem detect_request_type_spec_witness :
    detect_request_type "у меня болит голова" = "Симптомы" :=
  (detect_request_type_spec "у меня болит голова").2.2 (by decide)

/-- C7: `_extract_keywords` returns a duplicate-free list of at most 5
vocabulary terms, each occurring in the lowercased input; when at most 5
vocabulary terms match, the result is exactly the set of matching terms;
and on "боль в животе и температура" it contains "боль", "живот" and
"температур". -/
theorem extract_keywords_spec :
    ∀ text : String,
      (extract_keywords text).Nodup
      ∧ (extract_keywords text).length ≤ 5
      ∧ (∀ k ∈ extract_keywords text,
          k ∈ medicalTerms ∧ subB k.data (text.data.map pyLower) = true)
      ∧ ((medicalTerms.filter
            (fun t => subB t.data (text.data.map pyLower))).length ≤ 5 →
          ∀ k, k ∈ extract_keywords text ↔
            k ∈ medicalTerms.filter
              (fun t => subB t.data (text.data.map pyLower)))
      ∧ ("боль" ∈ extract_keywords "боль в животе и температура"
          ∧ "живот" ∈ extract_keywords "боль в животе и температура"
          ∧ "температур" ∈ extract_keywords "боль в животе и температура"
          ∧ (extract_keywords "боль в животе и температура").length ≤ 5) := by
  intro text
  have hnd : (medicalTerms.filter
      (fun t => subB t.data (text.data.map pyLower))).Nodup :=
    List.Nodup.filter _ (by decide)
  refine ⟨?_, ?_, ?_, ?_, by decide, by decide, by decide, by decide⟩
  · show ((medicalTerms.filter
        (fun t => subB t.data (text.data.map pyLower))).dedup.take 5).Nodup
    exact (List.nodup_dedup _).sublist (List.take_sublist 5 _)
  · show ((medicalTerms.filter
        (fun t => subB t.data (text.data.map pyLower))).dedup.take 5).length ≤ 5
    exact List.length_take_le 5 _
  · intro k hk
    have hk' : k ∈ (medicalTerms.filter
        (fun t => subB t.data (text.data.map pyLower))).dedup.take 5 := hk
    have hk2 := List.mem_dedup.mp (List.mem_of_mem_take hk')
    exact List.mem_filter.mp hk2
  · intro hle k
    have he : extract_keywords text = medicalTerms.filter
        (fun t => subB t.data (text.data.map pyLower)) := by
      show (medicalTerms.filter
          (fun t => subB t.data (text.data.map pyLower))).dedup.take 5 = _
      rw [List.Nodup.dedup hnd]
      exact List.take_of_length_le hle
    rw [he]

/-- Witness for C7's theorem at a concrete complaint. -/
theorem extract_keywords_spec_witness :
    "боль" ∈ medicalTerms ∧
      subB "боль".data ("боль в животе и температура".data.map pyLower) = true :=
  (extract_keywords_spec "боль в животе и температура").2.2.1 "боль" (by decide)

/-- The decoder branch recorded in a `convert_to_speech_format` outcome
is exactly the branch selected for the lowercased suffix of the input
path. -/
theorem convert_decoder_eq (p : String) (decodeOk exportOk : Bool) :
    (convert_to_speech_format p decodeOk exportOk).decoder =
      decoderFor (String.mk ((pathSuffix p.data).map pyLower)) := by
  unfold convert_to_speech_format
  rcases hd : decoderFor (String.mk ((pathSuffix p.data).map pyLower)) with
    _ | _ | _ | _ <;>
    first
      | rfl
      | (split_ifs <;> rfl)

/-- C8: for every input path whose lowercased extension is not one of
`.ogg`, `.oga`, `.mp3`, `.m4a`, `.wav`, `convert_to_speech_format`
returns failure immediately, invoking no decoder and creating no output
file. -/
theorem convert_unsupported_ext_fails :
    ∀ (p : String) (decodeOk exportOk : Bool),
      String.mk ((pathSuffix p.data).map pyLower) ∉ supportedExts →
      convert_to_speech_format p decodeOk exportOk =
        ⟨false, .noneDec, false⟩ := by
  intro p dOk eOk h
  have hd := (decoderFor_eq_noneDec_iff
    (String.mk ((pathSuffix p.data).map pyLower))).mpr h
  unfold convert_to_speech_format
  rw [hd]

/-- Witness for C8's theorem at a `.flac` path. -/
theorem convert_unsupported_ext_fails_witness :
    convert_to_speech_format "/tmp/audio.flac" true true =
      ⟨false, .noneDec, false⟩ :=
  convert_unsupported_ext_fails "/tmp/audio.flac" true true (by decide)

/-- C9: extension dispatch in `convert_to_speech_format` is
case-insensitive: the decoder is skipped exactly when the lowercased
suffix lies outside the supported set, two paths with the same lowercased
suffix behave identically, and uppercase or mixed-case variants of the
supported extensions select the same decoder branch as their lowercase
forms. -/
theorem convert_case_insensitive :
    ∀ (p q : String) (decodeOk exportOk : Bool),
      ((convert_to_speech_format p decodeOk exportOk).decoder = .noneDec ↔
        String.mk ((pathSuffix p.data).map pyLower) ∉ supportedExts)
      ∧ ((pathSuffix p.data).map pyLower = (pathSuffix q.data).map pyLower →
          convert_to_speech_format p decodeOk exportOk =
            convert_to_speech_format q decodeOk exportOk)
      ∧ convert_to_speech_format "a.OGG" decodeOk exportOk =
          convert_to_speech_format "a.ogg" decodeOk exportOk
      ∧ convert_to_speech_format "b.Mp3" decodeOk exportOk =
          convert_to_speech_format "b.mp3" decodeOk exportOk
      ∧ convert_to_speech_format "c.WAV" decodeOk exportOk =
          convert_to_speech_format "c.wav" decodeOk exportOk := by
  intro p q dOk eOk
  have same : ∀ (r s : String),
      (pathSuffix r.data).map pyLower = (pathSuffix s.data).map pyLower →
      convert_to_speech_format r dOk eOk = convert_to_speech_format s dOk eOk := by
    intro r s hrs
    unfold convert_to_speech_format
    rw [hrs]
  refine ⟨?_, same p q, same _ _ (by decide), same _ _ (by decide),
    same _ _ (by decide)⟩
  rw [convert_decoder_eq]
  exact decoderFor_eq_noneDec_iff _

/-- Witness for C9's theorem: an uppercase `.OGG` path converts exactly
like its lowercase twin. -/
theorem convert_case_insensitive_witness :
    convert_to_speech_format "x.OGG" true true =
      convert_to_speech_format "x.ogg" true true :=
  (convert_case_insensitive "x.OGG" "x.ogg" true true).2.1 (by decide)
